import Mathlib

/-!
Verification development for the `SpectralTilt` filter of lsp-dsp-units
(`src/main/filters/SpectralTilt.cpp`).

Floating-point scalars of the source are embedded as exact numbers:
configuration fields (slopes, frequency bounds) as rationals, since every
operation on them in the source is rational arithmetic, and the assembled
filter-chain coefficients as real numbers, since their computation uses
`tanf`, `powf` and `sqrtf`.

The `FilterBank` collaborator (`sFilter`) and the `dsp::` vector and
transform primitives are code of the project that is not part of the
sources at hand; they are modelled from the spec where so marked.
-/

namespace LspDspUnits

/-- Slope units of the spectral tilt filter.  The numeric values of the C
enum are declared in the header (not among the sources at hand); the
constructor `STLT_SLOPE_UNIT_OTHER` stands for any enum value outside the
named ones, which the source's `switch` sends to its `default:` branch. -/
inductive stlt_slope_unit_t where
  | STLT_SLOPE_UNIT_NONE
  | STLT_SLOPE_UNIT_NEPER_PER_NEPER
  | STLT_SLOPE_UNIT_DB_PER_OCTAVE
  | STLT_SLOPE_UNIT_DB_PER_DECADE
  | STLT_SLOPE_UNIT_OTHER
  deriving DecidableEq, Repr

/-- Normalization modes of the spectral tilt filter. -/
inductive stlt_norm_t where
  | STLT_NORM_NONE
  | STLT_NORM_AT_DC
  | STLT_NORM_AT_NYQUIST
  | STLT_NORM_AUTO
  deriving DecidableEq, Repr

open stlt_slope_unit_t stlt_norm_t

/-- `#define MAX_ORDER 100u` -/
def MAX_ORDER : Nat := 100

/-- `#define DFL_LOWER_FREQUENCY 0.1f` -/
def DFL_LOWER_FREQUENCY : ℚ := 0.1

/-- `#define DFL_UPPER_FREQUENCY 20.0e3f` -/
def DFL_UPPER_FREQUENCY : ℚ := 20000

/-- `#define BUF_LIM_SIZE 256u` -/
def BUF_LIM_SIZE : Nat := 256

/-- One digital biquad section (`dsp::biquad_x1_t`): coefficients of a
second-order digital filter, denominator coefficients stored with opposite
sign per the LSP convention. -/
structure biquad_x1_t where
  b0 : ℝ
  b1 : ℝ
  b2 : ℝ
  a1 : ℝ
  a2 : ℝ

/-- Modelled from the spec: the filter-chain collaborator (the `sFilter`
member, whose class is not among the sources at hand).  `building` is the
pending section list of an open `begin`/`end` rebuild transaction (`none`
when no transaction is open); `chain` is the active section list, each
section carrying its internal delay-line state, which persists across
`process` calls. -/
@[ext]
structure FilterBank where
  cap : Nat
  building : Option (List biquad_x1_t)
  chain : List (biquad_x1_t × (ℝ × ℝ))

namespace FilterBank

/-- Modelled from the spec: `init(maxSections)` pre-allocates capacity. -/
def init (n : Nat) : FilterBank := ⟨n, none, []⟩

/-- Modelled from the spec: `begin()` opens a chain-rebuild transaction. -/
def beginTx (fb : FilterBank) : FilterBank := { fb with building := some [] }

/-- Modelled from the spec: `add_chain()` allocates the next section slot
within the open transaction; `none` signals capacity exhaustion. -/
def add_chain (fb : FilterBank) (bq : biquad_x1_t) : Option FilterBank :=
  match fb.building with
  | some l => if l.length < fb.cap then some { fb with building := some (l ++ [bq]) } else none
  | none => none

/-- Modelled from the spec: `end(true)` installs the pending sections as the
active chain and clears the per-section delay-line memory. -/
def endTx (fb : FilterBank) : FilterBank :=
  match fb.building with
  | some l => { fb with building := none, chain := l.map (fun c => (c, ((0 : ℝ), (0 : ℝ)))) }
  | none => fb

/-- Modelled from the spec: one sample through one biquad section
(transposed direct form II; the feedback terms are added because the LSP
convention stores denominator coefficients sign-flipped). -/
def stepSection (c : biquad_x1_t) (st : ℝ × ℝ) (x : ℝ) : ℝ × (ℝ × ℝ) :=
  let y := c.b0 * x + st.1
  (y, (c.b1 * x + c.a1 * y + st.2, c.b2 * x + c.a2 * y))

/-- Modelled from the spec: one sample through the whole cascade, threading
each section's delay-line state. -/
def processSample : List (biquad_x1_t × (ℝ × ℝ)) → ℝ → ℝ × List (biquad_x1_t × (ℝ × ℝ))
  | [], x => (x, [])
  | (c, st) :: rest, x =>
      let r := stepSection c st x
      let r' := processSample rest r.1
      (r'.1, (c, r.2) :: r'.2)

/-- Modelled from the spec: a buffer through the cascade, sample by sample,
delay-line state persisting from each sample to the next. -/
def processBuf : List (biquad_x1_t × (ℝ × ℝ)) → List ℝ → List (biquad_x1_t × (ℝ × ℝ)) × List ℝ
  | ch, [] => (ch, [])
  | ch, x :: xs =>
      let r := processSample ch x
      let r' := processBuf r.2 xs
      (r'.1, r.1 :: r'.2)

/-- Modelled from the spec: `process(dst, src, count)` runs the assembled
chain over a buffer, maintaining internal delay-line state across calls. -/
def process (fb : FilterBank) (src : List ℝ) : FilterBank × List ℝ :=
  let r := processBuf fb.chain src
  ({ fb with chain := r.1 }, r.2)

end FilterBank

/-- The `SpectralTilt` object state: configuration fields, derived state and
the owned filter chain, as declared by the class (header fields mirrored
from their uses in the translation unit). -/
@[ext]
structure SpectralTilt where
  nOrder : Nat
  enSlopeUnit : stlt_slope_unit_t
  enNorm : stlt_norm_t
  fSlopeVal : ℚ
  fSlopeNepNep : ℚ
  fLowerFrequency : ℚ
  fUpperFrequency : ℚ
  nSampleRate : Nat
  bBypass : Bool
  bSync : Bool
  sFilter : FilterBank

namespace SpectralTilt

/-- First-order analog section `H(s) = (b1*s + b0)/(a1*s + a0)`
(`SpectralTilt::bilinear_spec_t`). -/
structure bilinear_spec_t where
  b0 : ℝ
  b1 : ℝ
  a0 : ℝ
  a1 : ℝ

/-- `SpectralTilt::bilinear_coefficient`: the coefficient for the bilinear
transform warping equation. -/
noncomputable def bilinear_coefficient (angularFrequency samplerate : ℝ) : ℝ :=
  angularFrequency / Real.tan (0.5 * angularFrequency / samplerate)

/-- `SpectralTilt::compute_bilinear_element`: build the first-order analog
section `b0 = negZero, b1 = 1, a0 = negPole, a1 = 1` and scale its numerator
by the gain selected by the normalization mode (the member fields `enNorm`
and `nSampleRate` are passed explicitly). -/
noncomputable def compute_bilinear_element (enNorm : stlt_norm_t) (nSampleRate : ℝ)
    (negZero negPole : ℝ) : bilinear_spec_t :=
  let b0 := negZero
  let b1 : ℝ := 1
  let a0 := negPole
  let a1 : ℝ := 1
  let g_a : ℝ :=
    match enNorm with
    | STLT_NORM_NONE => 1
    | STLT_NORM_AT_NYQUIST =>
        let pi_fs_sq := Real.pi * Real.pi * nSampleRate * nSampleRate
        let den := pi_fs_sq * a1 * a1 + a0 * a0
        let re := (pi_fs_sq * b1 * a1 + a0 * b0) / den
        let im := Real.pi * nSampleRate * (b1 * a0 - a1 * b0) / den
        1 / Real.sqrt (re * re + im * im)
    | _ => a0 / b0
  ⟨b0 * g_a, b1 * g_a, a0, a1⟩

/-- Modelled from the spec: `dsp::bilinear_transform_x1` (a vectorized
primitive outside the sources at hand) maps a second-order analog section
`(t0 + t1*s + t2*s^2)/(b0 + b1*s + b2*s^2)` to digital coefficients via the
bilinear substitution `s := c*(1 - 1/z)/(1 + 1/z)`, normalized by the
digital denominator's constant term, with the denominator coefficients
sign-flipped per the LSP convention. -/
noncomputable def bilinear_transform_x1 (c t0 t1 t2 b0 b1 b2 : ℝ) : biquad_x1_t :=
  let n := b0 + b1 * c + b2 * c ^ 2
  { b0 := (t0 + t1 * c + t2 * c ^ 2) / n
    b1 := (2 * t0 - 2 * t2 * c ^ 2) / n
    b2 := (t0 - t1 * c + t2 * c ^ 2) / n
    a1 := -((2 * b0 - 2 * b2 * c ^ 2) / n)
    a2 := -((b0 - b1 * c + b2 * c ^ 2) / n) }

/-- The slope-unit conversion `switch` of `update_settings`: convert the
provided slope value to Neper-per-Neper; the `default:` branch (identity)
catches every unit other than dB-per-octave and dB-per-decade. -/
def convertSlope (u : stlt_slope_unit_t) (v : ℚ) : ℚ :=
  match u with
  | STLT_SLOPE_UNIT_DB_PER_OCTAVE => v * 0.16609640419483184814453125
  | STLT_SLOPE_UNIT_DB_PER_DECADE => v * 0.05
  | _ => v

/-- The order-forcing lines of `update_settings`: force even order, then
clamp with `lsp_min(nOrder, MAX_ORDER)`. -/
def forcedOrder (n : Nat) : Nat :=
  min (if n % 2 = 0 then n else n + 1) MAX_ORDER

/-- The `STLT_NORM_AUTO` resolution line of `update_settings`. -/
def resolveNorm (norm : stlt_norm_t) (slopeNepNep : ℚ) : stlt_norm_t :=
  if norm = STLT_NORM_AUTO then
    (if slopeNepNep ≤ 0 then STLT_NORM_AT_DC else STLT_NORM_AT_NYQUIST)
  else norm

/-- The frequency-band validation of `update_settings`: each bound at or
above `0.5f * nSampleRate` resets to its default, and an inverted band
resets both bounds to their defaults. -/
def bandValidate (fs l u : ℚ) : ℚ × ℚ :=
  let l1 := if l ≥ 0.5 * fs then DFL_LOWER_FREQUENCY else l
  let u1 := if u ≥ 0.5 * fs then DFL_UPPER_FREQUENCY else u
  if l1 ≥ u1 then (DFL_LOWER_FREQUENCY, DFL_UPPER_FREQUENCY) else (l1, u1)

/-- The chain-assembly loop of `update_settings`: one iteration per pair of
bilinear elements (the source loops `n` over `0 ≤ n < nOrder` skipping odd
`n`; this recursion runs the same iterations counted by remaining pairs).
Returns the bank and `false` if `add_chain` returned null (the early-return
branch), `true` if the loop ran to completion. -/
noncomputable def assembleLoop (enNorm : stlt_norm_t) (fs r c_fn : ℝ) :
    Nat → ℝ → ℝ → FilterBank → FilterBank × Bool
  | 0, _, _, fb => (fb, true)
  | k + 1, negZero, negPole, fb =>
      let spec_now := compute_bilinear_element enNorm fs negZero negPole
      let spec_nxt := compute_bilinear_element enNorm fs (negZero * r) (negPole * r)
      let digitalbq := bilinear_transform_x1 c_fn
        (spec_now.b0 * spec_nxt.b0)
        (spec_now.b0 * spec_nxt.b1 + spec_now.b1 * spec_nxt.b0)
        (spec_now.b1 * spec_nxt.b1)
        (spec_now.a0 * spec_nxt.a0)
        (spec_now.a0 * spec_nxt.a1 + spec_now.a1 * spec_nxt.a0)
        (spec_now.a1 * spec_nxt.a1)
      match fb.add_chain digitalbq with
      | none => (fb, false)
      | some fb' => assembleLoop enNorm fs r c_fn k (negZero * r * r) (negPole * r * r) fb'

/-- The non-bypass tail of `update_settings`: compute the angular bounds,
the exponential spacing ratio, the prewarp coefficient and the initial
zero/pole, then run the assembly loop inside a `begin` transaction. -/
noncomputable def buildChain (enNorm : stlt_norm_t) (fs : ℝ) (ord : Nat)
    (l u slope : ℚ) (fb : FilterBank) : FilterBank × Bool :=
  let l_angf : ℝ := 2 * Real.pi * (l : ℝ)
  let u_angf : ℝ := 2 * Real.pi * (u : ℝ)
  let r : ℝ := (u_angf / l_angf) ^ ((1 : ℝ) / ((ord - 1 : Nat) : ℝ))
  let c_fn := bilinear_coefficient 1 fs
  let negZero := l_angf * r ^ (-(slope : ℝ) : ℝ)
  let negPole := l_angf
  assembleLoop enNorm fs r c_fn (ord / 2) negZero negPole fb.beginTx

/-- `SpectralTilt::update_settings` (the body of `synchronize`): early
return when `!bSync`; force the order; convert the slope; resolve Auto
normalization; validate the band; decide bypass; otherwise rebuild the
chain, `end`ing the transaction only when the loop completed (the
null-`add_chain` early return skips both `sFilter.end(true)` and the final
`bSync = true` line). -/
noncomputable def update_settings (s : SpectralTilt) : SpectralTilt :=
  if s.bSync then
    let nOrder := forcedOrder s.nOrder
    let fSlopeNepNep := convertSlope s.enSlopeUnit s.fSlopeVal
    let enNorm := resolveNorm s.enNorm fSlopeNepNep
    let band := bandValidate (s.nSampleRate : ℚ) s.fLowerFrequency s.fUpperFrequency
    if s.enSlopeUnit = STLT_SLOPE_UNIT_NONE ∨ fSlopeNepNep = 0 then
      { s with nOrder := nOrder, fSlopeNepNep := fSlopeNepNep, enNorm := enNorm,
               fLowerFrequency := band.1, fUpperFrequency := band.2,
               bBypass := true, bSync := true }
    else
      let bc := buildChain enNorm (s.nSampleRate : ℝ) nOrder band.1 band.2 fSlopeNepNep s.sFilter
      if bc.2 then
        { s with nOrder := nOrder, fSlopeNepNep := fSlopeNepNep, enNorm := enNorm,
                 fLowerFrequency := band.1, fUpperFrequency := band.2,
                 bBypass := false, sFilter := bc.1.endTx, bSync := true }
      else
        { s with nOrder := nOrder, fSlopeNepNep := fSlopeNepNep, enNorm := enNorm,
                 fLowerFrequency := band.1, fUpperFrequency := band.2,
                 bBypass := false, sFilter := bc.1 }
  else s

/-- The chunk loop shared by `process_add` and `process_mul`: process the
source in blocks of at most `BUF_LIM_SIZE` samples through the chain into a
temporary buffer, combine each block into the destination element-wise with
`comb`, and advance; the chain's delay-line state threads through the
blocks.  Buffers are the processed regions: `count` is the list length. -/
def processChunks (comb : ℝ → ℝ → ℝ) (ch : List (biquad_x1_t × (ℝ × ℝ)))
    (dst src : List ℝ) : List (biquad_x1_t × (ℝ × ℝ)) × List ℝ :=
  match src with
  | [] => (ch, dst)
  | x :: xs =>
      let src' := x :: xs
      let r := FilterBank.processBuf ch (src'.take BUF_LIM_SIZE)
      let out := List.zipWith comb (dst.take BUF_LIM_SIZE) r.2
      let rest := processChunks comb r.1 (dst.drop BUF_LIM_SIZE) (src'.drop BUF_LIM_SIZE)
      (rest.1, out ++ rest.2)
  termination_by src.length
  decreasing_by
    simp only [src', List.length_drop, List.length_cons, BUF_LIM_SIZE]
    omega

/-- `SpectralTilt::process_add`: `dst[i] = dst[i] + filter(src[i])`; a null
`src` reads as zeros (no-op), bypass adds the raw source. -/
def process_add (s : SpectralTilt) (dst : List ℝ) (src : Option (List ℝ)) :
    SpectralTilt × List ℝ :=
  match src with
  | none => (s, dst)
  | some src =>
      if s.bBypass then (s, List.zipWith (· + ·) dst src)
      else
        let r := processChunks (· + ·) s.sFilter.chain dst src
        ({ s with sFilter := { s.sFilter with chain := r.1 } }, r.2)

/-- `SpectralTilt::process_mul`: `dst[i] = dst[i] * filter(src[i])`; a null
`src` reads as zeros (zero-fill), bypass multiplies by the raw source. -/
def process_mul (s : SpectralTilt) (dst : List ℝ) (src : Option (List ℝ)) :
    SpectralTilt × List ℝ :=
  match src with
  | none => (s, List.replicate dst.length 0)
  | some src =>
      if s.bBypass then (s, List.zipWith (· * ·) dst src)
      else
        let r := processChunks (· * ·) s.sFilter.chain dst src
        ({ s with sFilter := { s.sFilter with chain := r.1 } }, r.2)

/-- `SpectralTilt::process_overwrite`: `dst[i] = filter(src[i])`; a null
`src` zero-fills, bypass copies the source, otherwise the whole buffer goes
through `sFilter.process` in one call. -/
def process_overwrite (s : SpectralTilt) (dst : List ℝ) (src : Option (List ℝ)) :
    SpectralTilt × List ℝ :=
  match src with
  | none => (s, List.replicate dst.length 0)
  | some src =>
      if s.bBypass then (s, src)
      else
        let r := s.sFilter.process src
        ({ s with sFilter := r.1 }, r.2)

/-- Run `process_overwrite` once for each chunk of a partitioned input (the
caller's destination region for a chunk has the chunk's length), and
concatenate the produced outputs. -/
def overwriteRuns (s : SpectralTilt) : List (List ℝ) → SpectralTilt × List ℝ
  | [] => (s, [])
  | c :: cs =>
      let r := process_overwrite s c (some c)
      let r' := overwriteRuns r.1 cs
      (r'.1, r.2 ++ r'.2)

/-! ### Scalar projections of `update_settings` -/

lemma update_settings_nOrder {s : SpectralTilt} (h : s.bSync = true) :
    (update_settings s).nOrder = forcedOrder s.nOrder := by
  simp only [update_settings, h]
  split_ifs <;> rfl

lemma update_settings_fSlopeNepNep {s : SpectralTilt} (h : s.bSync = true) :
    (update_settings s).fSlopeNepNep = convertSlope s.enSlopeUnit s.fSlopeVal := by
  simp only [update_settings, h]
  split_ifs <;> rfl

lemma update_settings_enNorm {s : SpectralTilt} (h : s.bSync = true) :
    (update_settings s).enNorm =
      resolveNorm s.enNorm (convertSlope s.enSlopeUnit s.fSlopeVal) := by
  simp only [update_settings, h]
  split_ifs <;> rfl

lemma update_settings_fLowerFrequency {s : SpectralTilt} (h : s.bSync = true) :
    (update_settings s).fLowerFrequency =
      (bandValidate (s.nSampleRate : ℚ) s.fLowerFrequency s.fUpperFrequency).1 := by
  simp only [update_settings, h]
  split_ifs <;> rfl

lemma update_settings_fUpperFrequency {s : SpectralTilt} (h : s.bSync = true) :
    (update_settings s).fUpperFrequency =
      (bandValidate (s.nSampleRate : ℚ) s.fLowerFrequency s.fUpperFrequency).2 := by
  simp only [update_settings, h]
  split_ifs <;> rfl

lemma update_settings_bBypass {s : SpectralTilt} (h : s.bSync = true) :
    (update_settings s).bBypass =
      (if s.enSlopeUnit = STLT_SLOPE_UNIT_NONE ∨ convertSlope s.enSlopeUnit s.fSlopeVal = 0
       then true else false) := by
  simp only [update_settings, h]
  split_ifs <;> rfl

lemma update_settings_bSync {s : SpectralTilt} (h : s.bSync = true) :
    (update_settings s).bSync = true := by
  simp only [update_settings, h]
  split_ifs <;> rfl

lemma update_settings_enSlopeUnit {s : SpectralTilt} :
    (update_settings s).enSlopeUnit = s.enSlopeUnit := by
  simp only [update_settings]
  split_ifs <;> rfl

lemma update_settings_fSlopeVal {s : SpectralTilt} :
    (update_settings s).fSlopeVal = s.fSlopeVal := by
  simp only [update_settings]
  split_ifs <;> rfl

lemma update_settings_nSampleRate {s : SpectralTilt} :
    (update_settings s).nSampleRate = s.nSampleRate := by
  simp only [update_settings]
  split_ifs <;> rfl

/-! ### Claim theorems (first group) -/

/-- C4: for every prior `dst` contents and every count, `process_add` with
`src` absent leaves `dst` unchanged, `process_mul` with `src` absent zeroes
`dst`, and `process_overwrite` with `src` absent zeroes `dst`, regardless
of bypass state. -/
theorem spectral_tilt_absent_source_identity (s : SpectralTilt) (dst : List ℝ) :
    process_add s dst none = (s, dst) ∧
    process_mul s dst none = (s, List.replicate dst.length 0) ∧
    process_overwrite s dst none = (s, List.replicate dst.length 0) :=
  ⟨rfl, rfl, rfl⟩

/-- C8: slope unit conversion is pure and total: `update_settings` computes
the canonical Neper-per-Neper slope as `slopeValue * 0.16609640419483184814453125`
for dB-per-octave, `slopeValue * 0.05` for dB-per-decade, and the identity
for Neper-per-Neper and for every other (unknown or unsupported) unit
value, with no error conditions. -/
theorem spectral_tilt_slope_conversion (s : SpectralTilt) (v : ℚ) (h : s.bSync = true) :
    (update_settings s).fSlopeNepNep = convertSlope s.enSlopeUnit s.fSlopeVal ∧
    convertSlope STLT_SLOPE_UNIT_DB_PER_OCTAVE v = v * 0.16609640419483184814453125 ∧
    convertSlope STLT_SLOPE_UNIT_DB_PER_DECADE v = v * 0.05 ∧
    convertSlope STLT_SLOPE_UNIT_NEPER_PER_NEPER v = v ∧
    convertSlope STLT_SLOPE_UNIT_NONE v = v ∧
    convertSlope STLT_SLOPE_UNIT_OTHER v = v :=
  ⟨update_settings_fSlopeNepNep h, rfl, rfl, rfl, rfl, rfl⟩

/-- A default-like example state (slope unit `NONE`, as set by a caller
requesting bypass), used to witness hypothesis-bearing theorems. -/
def exBypass : SpectralTilt where
  nOrder := 2
  enSlopeUnit := STLT_SLOPE_UNIT_NONE
  enNorm := STLT_NORM_NONE
  fSlopeVal := 1
  fSlopeNepNep := 1
  fLowerFrequency := 18000
  fUpperFrequency := 20000
  nSampleRate := 48000
  bBypass := false
  bSync := true
  sFilter := FilterBank.init MAX_ORDER

/-- Witness for C8 at a concrete state and slope value. -/
theorem spectral_tilt_slope_conversion_witness :
    (update_settings exBypass).fSlopeNepNep = convertSlope exBypass.enSlopeUnit exBypass.fSlopeVal ∧
    convertSlope STLT_SLOPE_UNIT_DB_PER_OCTAVE 1 = 1 * 0.16609640419483184814453125 ∧
    convertSlope STLT_SLOPE_UNIT_DB_PER_DECADE 1 = 1 * 0.05 ∧
    convertSlope STLT_SLOPE_UNIT_NEPER_PER_NEPER 1 = 1 ∧
    convertSlope STLT_SLOPE_UNIT_NONE 1 = 1 ∧
    convertSlope STLT_SLOPE_UNIT_OTHER 1 = 1 :=
  spectral_tilt_slope_conversion exBypass 1 rfl

lemma update_settings_bypass_of_unit_none {s : SpectralTilt}
    (hu : s.enSlopeUnit = STLT_SLOPE_UNIT_NONE) (h : s.bSync = true) :
    (update_settings s).bBypass = true := by
  rw [update_settings_bBypass h]
  simp [hu]

/-- C3: after `update_settings` on a state whose slope unit is `NONE` (any
slope value), for same-length buffers the overwrite entry point copies the
source, the additive entry point adds element-wise, and the multiplicative
entry point multiplies element-wise, with the filter chain skipped entirely
(the state, chain included, is returned untouched). -/
theorem spectral_tilt_bypass_identity (s : SpectralTilt) (dst src : List ℝ)
    (hu : s.enSlopeUnit = STLT_SLOPE_UNIT_NONE) (hs : s.bSync = true)
    (_hlen : dst.length = src.length) :
    process_overwrite (update_settings s) dst (some src) = (update_settings s, src) ∧
    process_add (update_settings s) dst (some src) =
      (update_settings s, List.zipWith (· + ·) dst src) ∧
    process_mul (update_settings s) dst (some src) =
      (update_settings s, List.zipWith (· * ·) dst src) := by
  have hb : (update_settings s).bBypass = true := update_settings_bypass_of_unit_none hu hs
  exact ⟨by simp [process_overwrite, hb], by simp [process_add, hb], by simp [process_mul, hb]⟩

/-- Witness for C3 at a concrete state and concrete buffers. -/
theorem spectral_tilt_bypass_identity_witness :
    process_overwrite (update_settings exBypass) [1, 2] (some [3, 4]) =
      (update_settings exBypass, [3, 4]) ∧
    process_add (update_settings exBypass) [1, 2] (some [3, 4]) =
      (update_settings exBypass, List.zipWith (· + ·) [1, 2] [3, 4]) ∧
    process_mul (update_settings exBypass) [1, 2] (some [3, 4]) =
      (update_settings exBypass, List.zipWith (· * ·) [1, 2] [3, 4]) :=
  spectral_tilt_bypass_identity exBypass [1, 2] [3, 4] rfl rfl rfl

/-- C1 counterexample: at sample rate 48000 the Nyquist frequency is 24000
and half of it is 12000; the configured lower bound 18000 is at or above
12000, so the claim as stated demands a reset to the default 0.1 Hz, but
`update_settings` keeps it at 18000 (the code's threshold is
`0.5 * sampleRate`, the Nyquist frequency itself). -/
theorem spectral_tilt_band_claim_counterexample :
    exBypass.fLowerFrequency ≥ ((exBypass.nSampleRate : ℚ) / 2) / 2 ∧
    (update_settings exBypass).fLowerFrequency = 18000 ∧
    (update_settings exBypass).fLowerFrequency ≠ DFL_LOWER_FREQUENCY := by
  have hL := update_settings_fLowerFrequency (s := exBypass) rfl
  refine ⟨by norm_num [exBypass], ?_, ?_⟩ <;>
    rw [hL] <;>
    norm_num [exBypass, bandValidate, DFL_LOWER_FREQUENCY, DFL_UPPER_FREQUENCY]

/-- C1 (amended): during `update_settings` the band is validated against
the Nyquist frequency (half the sample rate): a lower bound at or above
`sampleRate/2` resets to the default 0.1 Hz, an upper bound at or above
`sampleRate/2` resets to the default 20 kHz, and if afterwards the lower
bound is still at or above the upper bound, both reset to their defaults. -/
theorem spectral_tilt_band_validation (s : SpectralTilt) (h : s.bSync = true) :
    ((update_settings s).fLowerFrequency, (update_settings s).fUpperFrequency) =
      (if (if s.fLowerFrequency ≥ (s.nSampleRate : ℚ) / 2 then (0.1 : ℚ) else s.fLowerFrequency) ≥
          (if s.fUpperFrequency ≥ (s.nSampleRate : ℚ) / 2 then (20000 : ℚ) else s.fUpperFrequency)
       then ((0.1 : ℚ), (20000 : ℚ))
       else (if s.fLowerFrequency ≥ (s.nSampleRate : ℚ) / 2 then (0.1 : ℚ) else s.fLowerFrequency,
             if s.fUpperFrequency ≥ (s.nSampleRate : ℚ) / 2 then (20000 : ℚ) else s.fUpperFrequency)) := by
  rw [update_settings_fLowerFrequency h, update_settings_fUpperFrequency h, Prod.mk.eta]
  have e : (0.5 : ℚ) * (s.nSampleRate : ℚ) = (s.nSampleRate : ℚ) / 2 := by ring
  simp only [bandValidate, DFL_LOWER_FREQUENCY, DFL_UPPER_FREQUENCY, e]

/-- Witness for the amended C1 at a concrete state. -/
theorem spectral_tilt_band_validation_witness :
    ((update_settings exBypass).fLowerFrequency, (update_settings exBypass).fUpperFrequency) =
      (if (if exBypass.fLowerFrequency ≥ (exBypass.nSampleRate : ℚ) / 2 then (0.1 : ℚ)
           else exBypass.fLowerFrequency) ≥
          (if exBypass.fUpperFrequency ≥ (exBypass.nSampleRate : ℚ) / 2 then (20000 : ℚ)
           else exBypass.fUpperFrequency)
       then ((0.1 : ℚ), (20000 : ℚ))
       else (if exBypass.fLowerFrequency ≥ (exBypass.nSampleRate : ℚ) / 2 then (0.1 : ℚ)
             else exBypass.fLowerFrequency,
             if exBypass.fUpperFrequency ≥ (exBypass.nSampleRate : ℚ) / 2 then (20000 : ℚ)
             else exBypass.fUpperFrequency)) :=
  spectral_tilt_band_validation exBypass rfl

/-! ### Characterization of the assembly loop -/

/-- The digital biquad built by one iteration of the assembly loop from the
running `(negZero, negPole)` pair. -/
noncomputable def loopBiquad (enNorm : stlt_norm_t) (fs r c_fn negZero negPole : ℝ) :
    biquad_x1_t :=
  let spec_now := compute_bilinear_element enNorm fs negZero negPole
  let spec_nxt := compute_bilinear_element enNorm fs (negZero * r) (negPole * r)
  bilinear_transform_x1 c_fn
    (spec_now.b0 * spec_nxt.b0)
    (spec_now.b0 * spec_nxt.b1 + spec_now.b1 * spec_nxt.b0)
    (spec_now.b1 * spec_nxt.b1)
    (spec_now.a0 * spec_nxt.a0)
    (spec_now.a0 * spec_nxt.a1 + spec_now.a1 * spec_nxt.a0)
    (spec_now.a1 * spec_nxt.a1)

/-- The effect of the assembly loop on the pending section list alone, as a
pure function of the capacity and the starting list. -/
noncomputable def assembleB (enNorm : stlt_norm_t) (fs r c_fn : ℝ) :
    Nat → ℝ → ℝ → Nat → List biquad_x1_t → List biquad_x1_t × Bool
  | 0, _, _, _, l => (l, true)
  | k + 1, negZero, negPole, cap, l =>
      if l.length < cap then
        assembleB enNorm fs r c_fn k (negZero * r * r) (negPole * r * r) cap
          (l ++ [loopBiquad enNorm fs r c_fn negZero negPole])
      else (l, false)

lemma assembleLoop_eq_assembleB (enNorm : stlt_norm_t) (fs r c_fn : ℝ) :
    ∀ (k : Nat) (z p : ℝ) (fb : FilterBank) (l : List biquad_x1_t),
    fb.building = some l →
    assembleLoop enNorm fs r c_fn k z p fb =
      ({ fb with building := some (assembleB enNorm fs r c_fn k z p fb.cap l).1 },
       (assembleB enNorm fs r c_fn k z p fb.cap l).2) := by
  intro k
  induction k with
  | zero =>
      intro z p fb l hb
      simp only [assembleLoop, assembleB, ← hb]
  | succ k ih =>
      intro z p fb l hb
      rw [assembleLoop, assembleB]
      simp only [FilterBank.add_chain, hb]
      by_cases hlt : l.length < fb.cap
      · rw [if_pos hlt, if_pos hlt]
        exact ih (z * r * r) (p * r * r) _ _ rfl
      · rw [if_neg hlt, if_neg hlt]
        simp only [← hb]

lemma assembleB_complete (enNorm : stlt_norm_t) (fs r c_fn : ℝ) :
    ∀ (k : Nat) (z p : ℝ) (cap : Nat) (l : List biquad_x1_t),
    l.length + k ≤ cap →
    (assembleB enNorm fs r c_fn k z p cap l).2 = true ∧
    (assembleB enNorm fs r c_fn k z p cap l).1.length = l.length + k := by
  intro k
  induction k with
  | zero => intro z p cap l _; simp [assembleB]
  | succ k ih =>
      intro z p cap l hle
      rw [assembleB]
      rw [if_pos (by omega)]
      have h := ih (z * r * r) (p * r * r) cap
        (l ++ [loopBiquad enNorm fs r c_fn z p]) (by simp; omega)
      simp only [List.length_append, List.length_cons, List.length_nil] at h
      exact ⟨h.1, by omega⟩

lemma buildChain_eq (enNorm : stlt_norm_t) (fs : ℝ) (ord : Nat) (lo up slope : ℚ)
    (fb : FilterBank) :
    buildChain enNorm fs ord lo up slope fb =
      (let l_angf : ℝ := 2 * Real.pi * (lo : ℝ)
       let u_angf : ℝ := 2 * Real.pi * (up : ℝ)
       let r : ℝ := (u_angf / l_angf) ^ ((1 : ℝ) / ((ord - 1 : Nat) : ℝ))
       let c_fn := bilinear_coefficient 1 fs
       let b := assembleB enNorm fs r c_fn (ord / 2)
         (l_angf * r ^ (-(slope : ℝ) : ℝ)) l_angf fb.cap []
       ({ fb with building := some b.1 }, b.2)) := by
  rw [buildChain, assembleLoop_eq_assembleB _ _ _ _ _ _ _ fb.beginTx [] rfl]
  rfl

/-! ### C7: Auto normalization resolution -/

lemma resolveNorm_ne_auto (n : stlt_norm_t) (a : ℚ) :
    resolveNorm n a ≠ STLT_NORM_AUTO := by
  unfold resolveNorm
  split_ifs with h1 h2 <;> simp_all

lemma resolveNorm_of_ne_auto {n : stlt_norm_t} (a : ℚ) (h : n ≠ STLT_NORM_AUTO) :
    resolveNorm n a = n := by
  unfold resolveNorm
  rw [if_neg h]

/-- C7: at synchronization time a stored `Auto` normalization mode is
replaced by `AtDc` when the canonical Neper-per-Neper slope is at most 0
and by `AtNyquist` otherwise, overwriting the stored mode; after one
`update_settings` the mode is never `Auto`, and a further
`update_settings` keeps the resolved mode. -/
theorem spectral_tilt_auto_norm_resolution (s : SpectralTilt) (h : s.bSync = true) :
    (update_settings s).enNorm =
      (if s.enNorm = STLT_NORM_AUTO then
        (if convertSlope s.enSlopeUnit s.fSlopeVal ≤ 0 then STLT_NORM_AT_DC
         else STLT_NORM_AT_NYQUIST)
       else s.enNorm) ∧
    (update_settings s).enNorm ≠ STLT_NORM_AUTO ∧
    (update_settings (update_settings s)).enNorm = (update_settings s).enNorm := by
  have h2 : (update_settings s).bSync = true := update_settings_bSync h
  refine ⟨by rw [update_settings_enNorm h]; rfl, ?_, ?_⟩
  · rw [update_settings_enNorm h]
    exact resolveNorm_ne_auto _ _
  · rw [update_settings_enNorm h2, update_settings_enSlopeUnit, update_settings_fSlopeVal]
    exact resolveNorm_of_ne_auto _ (by rw [update_settings_enNorm h]; exact resolveNorm_ne_auto _ _)

/-- A non-bypass example state: Neper-per-Neper slope 1, Auto
normalization, order 3, audio band at sample rate 48000, chain capacity
`MAX_ORDER` as installed by `construct()`. -/
def exTilt : SpectralTilt where
  nOrder := 3
  enSlopeUnit := STLT_SLOPE_UNIT_NEPER_PER_NEPER
  enNorm := STLT_NORM_AUTO
  fSlopeVal := 1
  fSlopeNepNep := 1
  fLowerFrequency := 20
  fUpperFrequency := 20000
  nSampleRate := 48000
  bBypass := false
  bSync := true
  sFilter := FilterBank.init MAX_ORDER

/-- Witness for C7 at a concrete state with `Auto` normalization. -/
theorem spectral_tilt_auto_norm_resolution_witness :
    (update_settings exTilt).enNorm =
      (if exTilt.enNorm = STLT_NORM_AUTO then
        (if convertSlope exTilt.enSlopeUnit exTilt.fSlopeVal ≤ 0 then STLT_NORM_AT_DC
         else STLT_NORM_AT_NYQUIST)
       else exTilt.enNorm) ∧
    (update_settings exTilt).enNorm ≠ STLT_NORM_AUTO ∧
    (update_settings (update_settings exTilt)).enNorm = (update_settings exTilt).enNorm :=
  spectral_tilt_auto_norm_resolution exTilt rfl

/-! ### C5 / C10: effective order, section count, capacity -/

lemma forcedOrder_even (n : Nat) : forcedOrder n % 2 = 0 := by
  unfold forcedOrder MAX_ORDER
  split_ifs with h <;> omega

lemma forcedOrder_le (n : Nat) : forcedOrder n ≤ 100 := by
  unfold forcedOrder MAX_ORDER
  omega

lemma update_settings_sFilter {s : SpectralTilt} (h : s.bSync = true) :
    (update_settings s).sFilter =
      (if s.enSlopeUnit = STLT_SLOPE_UNIT_NONE ∨ convertSlope s.enSlopeUnit s.fSlopeVal = 0
       then s.sFilter
       else
         let bc := buildChain (resolveNorm s.enNorm (convertSlope s.enSlopeUnit s.fSlopeVal))
           (s.nSampleRate : ℝ) (forcedOrder s.nOrder)
           (bandValidate (s.nSampleRate : ℚ) s.fLowerFrequency s.fUpperFrequency).1
           (bandValidate (s.nSampleRate : ℚ) s.fLowerFrequency s.fUpperFrequency).2
           (convertSlope s.enSlopeUnit s.fSlopeVal) s.sFilter
         if bc.2 then bc.1.endTx else bc.1) := by
  simp only [update_settings, h]
  split_ifs <;> rfl

/-- With enough capacity the assembly loop of `buildChain` never hits the
null `add_chain` branch: it completes with exactly `ord / 2` pending
sections and leaves every other bank field untouched. -/
lemma buildChain_spec (enNorm : stlt_norm_t) (fs : ℝ) (ord : Nat) (lo up slope : ℚ)
    (fb : FilterBank) (hord : ord / 2 ≤ fb.cap) :
    (buildChain enNorm fs ord lo up slope fb).2 = true ∧
    ∃ l, (buildChain enNorm fs ord lo up slope fb).1 = { fb with building := some l } ∧
      l.length = ord / 2 := by
  simp only [buildChain_eq]
  constructor
  · exact (assembleB_complete _ _ _ _ _ _ _ _ _ (by simpa using hord)).1
  · exact ⟨_, rfl,
      by simpa using (assembleB_complete _ _ _ _ (ord / 2) _ _ fb.cap [] (by simpa using hord)).2⟩

/-- The non-bypass rebuild with the constructed capacity `MAX_ORDER` always
completes: the loop appends exactly `forcedOrder/2` sections, `end(true)`
runs (`building` returns to `none`) and installs them as the chain. -/
lemma update_settings_chain_complete {s : SpectralTilt} (h : s.bSync = true)
    (hcap : s.sFilter.cap = MAX_ORDER)
    (hnb : ¬(s.enSlopeUnit = STLT_SLOPE_UNIT_NONE ∨ convertSlope s.enSlopeUnit s.fSlopeVal = 0)) :
    (buildChain (resolveNorm s.enNorm (convertSlope s.enSlopeUnit s.fSlopeVal))
        (s.nSampleRate : ℝ) (forcedOrder s.nOrder)
        (bandValidate (s.nSampleRate : ℚ) s.fLowerFrequency s.fUpperFrequency).1
        (bandValidate (s.nSampleRate : ℚ) s.fLowerFrequency s.fUpperFrequency).2
        (convertSlope s.enSlopeUnit s.fSlopeVal) s.sFilter).2 = true ∧
    (update_settings s).sFilter.building = none ∧
    (update_settings s).sFilter.chain.length = forcedOrder s.nOrder / 2 := by
  have hord : forcedOrder s.nOrder / 2 ≤ s.sFilter.cap := by
    rw [hcap]
    unfold MAX_ORDER
    have := forcedOrder_le s.nOrder
    omega
  obtain ⟨h2, l, hfb, hlen⟩ := buildChain_spec
    (resolveNorm s.enNorm (convertSlope s.enSlopeUnit s.fSlopeVal)) (s.nSampleRate : ℝ)
    (forcedOrder s.nOrder)
    (bandValidate (s.nSampleRate : ℚ) s.fLowerFrequency s.fUpperFrequency).1
    (bandValidate (s.nSampleRate : ℚ) s.fLowerFrequency s.fUpperFrequency).2
    (convertSlope s.enSlopeUnit s.fSlopeVal) s.sFilter hord
  refine ⟨h2, ?_, ?_⟩ <;>
    · rw [update_settings_sFilter h, if_neg hnb]
      simp only [h2, if_true, hfb, FilterBank.endTx, List.length_map, hlen]

/-- C5: after `update_settings` the effective order is even and at most
100 (a requested 101 yields 100, a requested 3 yields 4), and when not
bypassed the number of biquad sections in the chain equals half the
effective order. -/
theorem spectral_tilt_effective_order (s : SpectralTilt) (h : s.bSync = true)
    (hcap : s.sFilter.cap = MAX_ORDER) :
    (update_settings s).nOrder % 2 = 0 ∧
    (update_settings s).nOrder ≤ 100 ∧
    (s.nOrder = 101 → (update_settings s).nOrder = 100) ∧
    (s.nOrder = 3 → (update_settings s).nOrder = 4) ∧
    ((update_settings s).bBypass = false →
      (update_settings s).sFilter.chain.length = (update_settings s).nOrder / 2) := by
  simp only [update_settings_nOrder h]
  refine ⟨forcedOrder_even _, forcedOrder_le _, ?_, ?_, ?_⟩
  · intro e; rw [e]; rfl
  · intro e; rw [e]; rfl
  · intro hb
    rw [update_settings_bBypass h] at hb
    split_ifs at hb with hc
    exact (update_settings_chain_complete h hcap hc).2.2

/-- Witness for C5 at a concrete state (requested order 3). -/
theorem spectral_tilt_effective_order_witness :
    (update_settings exTilt).nOrder % 2 = 0 ∧
    (update_settings exTilt).nOrder ≤ 100 ∧
    (exTilt.nOrder = 101 → (update_settings exTilt).nOrder = 100) ∧
    (exTilt.nOrder = 3 → (update_settings exTilt).nOrder = 4) ∧
    ((update_settings exTilt).bBypass = false →
      (update_settings exTilt).sFilter.chain.length = (update_settings exTilt).nOrder / 2) :=
  spectral_tilt_effective_order exTilt rfl rfl

/-- C10: with the chain capacity `MAX_ORDER = 100` installed at
construction and the loop appending at most `effectiveOrder/2 ≤ 50`
sections, the null-`add_chain` early return of `update_settings` is never
taken: every non-bypass `update_settings` completes the `begin`/`end`
rebuild transaction (`building` is back to `none`) and appends exactly
`effectiveOrder/2` sections. -/
theorem spectral_tilt_capacity_unreachable (s : SpectralTilt) (h : s.bSync = true)
    (hcap : s.sFilter.cap = MAX_ORDER)
    (hnb : ¬(s.enSlopeUnit = STLT_SLOPE_UNIT_NONE ∨ convertSlope s.enSlopeUnit s.fSlopeVal = 0)) :
    (buildChain (resolveNorm s.enNorm (convertSlope s.enSlopeUnit s.fSlopeVal))
        (s.nSampleRate : ℝ) (forcedOrder s.nOrder)
        (bandValidate (s.nSampleRate : ℚ) s.fLowerFrequency s.fUpperFrequency).1
        (bandValidate (s.nSampleRate : ℚ) s.fLowerFrequency s.fUpperFrequency).2
        (convertSlope s.enSlopeUnit s.fSlopeVal) s.sFilter).2 = true ∧
    (update_settings s).sFilter.building = none ∧
    (update_settings s).sFilter.chain.length = forcedOrder s.nOrder / 2 :=
  update_settings_chain_complete h hcap hnb

/-- Witness for C10 at a concrete non-bypass state. -/
theorem spectral_tilt_capacity_unreachable_witness :
    (buildChain (resolveNorm exTilt.enNorm (convertSlope exTilt.enSlopeUnit exTilt.fSlopeVal))
        (exTilt.nSampleRate : ℝ) (forcedOrder exTilt.nOrder)
        (bandValidate (exTilt.nSampleRate : ℚ) exTilt.fLowerFrequency exTilt.fUpperFrequency).1
        (bandValidate (exTilt.nSampleRate : ℚ) exTilt.fLowerFrequency exTilt.fUpperFrequency).2
        (convertSlope exTilt.enSlopeUnit exTilt.fSlopeVal) exTilt.sFilter).2 = true ∧
    (update_settings exTilt).sFilter.building = none ∧
    (update_settings exTilt).sFilter.chain.length = forcedOrder exTilt.nOrder / 2 :=
  spectral_tilt_capacity_unreachable exTilt rfl rfl (by decide)

/-! ### C2: block-size invariance of streaming -/

lemma processBuf_append (xs : List ℝ) : ∀ (ch : List (biquad_x1_t × (ℝ × ℝ))) (ys : List ℝ),
    FilterBank.processBuf ch (xs ++ ys) =
      ((FilterBank.processBuf (FilterBank.processBuf ch xs).1 ys).1,
       (FilterBank.processBuf ch xs).2 ++ (FilterBank.processBuf (FilterBank.processBuf ch xs).1 ys).2) := by
  induction xs with
  | nil => intro ch ys; simp [FilterBank.processBuf]
  | cons x xs ih =>
      intro ch ys
      simp only [List.cons_append, FilterBank.processBuf, List.append_eq, ih]

lemma process_append (fb : FilterBank) (xs ys : List ℝ) :
    fb.process (xs ++ ys) =
      (((fb.process xs).1.process ys).1, (fb.process xs).2 ++ ((fb.process xs).1.process ys).2) := by
  simp only [FilterBank.process, processBuf_append]

lemma process_overwrite_nonbypass {s : SpectralTilt} (hb : s.bBypass = false)
    (dst src : List ℝ) :
    process_overwrite s dst (some src) =
      ({ s with sFilter := (s.sFilter.process src).1 }, (s.sFilter.process src).2) := by
  simp [process_overwrite, hb]

lemma overwriteRuns_flatten (chunks : List (List ℝ)) : ∀ (s : SpectralTilt),
    s.bBypass = false →
    overwriteRuns s chunks = process_overwrite s chunks.flatten (some chunks.flatten) := by
  induction chunks with
  | nil =>
      intro s hb
      simp only [overwriteRuns, List.flatten_nil]
      rw [process_overwrite_nonbypass hb]
      rfl
  | cons c cs ih =>
      intro s hb
      have hb' : (({ s with sFilter := (s.sFilter.process c).1 }) : SpectralTilt).bBypass = false := hb
      simp only [overwriteRuns, List.flatten_cons]
      simp only [process_overwrite_nonbypass hb]
      rw [ih _ hb']
      simp only [process_overwrite_nonbypass hb']
      rw [process_append]

/-- C2: for a non-bypass state, running the overwrite entry point once over
a whole input equals running it over any partition of that input into
consecutive sub-calls — the chain's delay-line state persists across block
boundaries and across calls.  (The length bound of the claim is carried as
a hypothesis; the invariance holds for every length.) -/
theorem spectral_tilt_block_size_invariance (s : SpectralTilt) (xs : List ℝ)
    (chunks : List (List ℝ)) (hb : s.bBypass = false) (_hlen : 256 < xs.length)
    (hj : chunks.flatten = xs) :
    overwriteRuns s chunks = process_overwrite s xs (some xs) := by
  subst hj
  exact overwriteRuns_flatten chunks s hb

set_option maxRecDepth 4096 in
/-- Witness for C2: a 257-sample zero input, processed as one chunk. -/
theorem spectral_tilt_block_size_invariance_witness :
    overwriteRuns exTilt [List.replicate 257 (0 : ℝ)] =
      process_overwrite exTilt (List.replicate 257 (0 : ℝ))
        (some (List.replicate 257 (0 : ℝ))) :=
  spectral_tilt_block_size_invariance exTilt (List.replicate 257 (0 : ℝ))
    [List.replicate 257 (0 : ℝ)] rfl (by simp) (by simp)

/-! ### C6: gain normalization of the bilinear element -/

/-- Squared magnitude response of the first-order analog section
`H(s) = (b1*s + b0)/(a1*s + a0)` at angular frequency `w`:
`|H(jw)|^2 = (b0^2 + w^2 b1^2)/(a0^2 + w^2 a1^2)`. -/
noncomputable def magSq (sp : bilinear_spec_t) (w : ℝ) : ℝ :=
  (sp.b0 ^ 2 + w ^ 2 * sp.b1 ^ 2) / (sp.a0 ^ 2 + w ^ 2 * sp.a1 ^ 2)

/-- Magnitude response of the first-order analog section at angular
frequency `w`. -/
noncomputable def magnitude (sp : bilinear_spec_t) (w : ℝ) : ℝ :=
  Real.sqrt (magSq sp w)

lemma magSq_at_dc (z p fs : ℝ) (hz : 0 < z) (hp : 0 < p) :
    magSq (compute_bilinear_element STLT_NORM_AT_DC fs z p) 0 = 1 := by
  simp only [compute_bilinear_element, magSq]
  have hz' := hz.ne'
  have hp' := hp.ne'
  field_simp

lemma magSq_at_nyquist (z p fs : ℝ) (hz : 0 < z) (hp : 0 < p) (hfs : 0 < fs) :
    magSq (compute_bilinear_element STLT_NORM_AT_NYQUIST fs z p) (Real.pi * fs) = 1 := by
  simp only [compute_bilinear_element, magSq]
  have hpi := Real.pi_pos
  have hdenpos : (0 : ℝ) < Real.pi * Real.pi * fs * fs * 1 * 1 + p * p := by positivity
  set E := (Real.pi * Real.pi * fs * fs * 1 * 1 + p * z) / (Real.pi * Real.pi * fs * fs * 1 * 1 + p * p) *
        ((Real.pi * Real.pi * fs * fs * 1 * 1 + p * z) / (Real.pi * Real.pi * fs * fs * 1 * 1 + p * p)) +
      Real.pi * fs * (1 * p - 1 * z) / (Real.pi * Real.pi * fs * fs * 1 * 1 + p * p) *
        (Real.pi * fs * (1 * p - 1 * z) / (Real.pi * Real.pi * fs * fs * 1 * 1 + p * p)) with hE
  have hEval : E = ((Real.pi * fs) ^ 2 + z ^ 2) / ((Real.pi * fs) ^ 2 + p ^ 2) := by
    rw [hE]
    field_simp
    ring
  have hEpos : 0 < E := by
    rw [hEval]
    positivity
  have hsqrtpos : 0 < Real.sqrt E := Real.sqrt_pos.mpr hEpos
  field_simp
  rw [hEval]
  field_simp
  ring

/-- C6: for every positive `negZero`, `negPole` and sample rate, the
first-order section built as `b0 = negZero, b1 = 1, a0 = negPole, a1 = 1`
and scaled by the mode's gain has magnitude response exactly unity at the
normalization reference — angular frequency 0 for `AtDc` (gain `a0/b0`)
and angular frequency `pi * sampleRate` for `AtNyquist` (gain the
reciprocal of `|H(j pi fs)|` from its closed-form real and imaginary
parts) — under exact real arithmetic. -/
theorem spectral_tilt_gain_normalization (negZero negPole fs : ℝ)
    (hz : 0 < negZero) (hp : 0 < negPole) (hfs : 0 < fs) :
    magnitude (compute_bilinear_element STLT_NORM_AT_DC fs negZero negPole) 0 = 1 ∧
    magnitude (compute_bilinear_element STLT_NORM_AT_NYQUIST fs negZero negPole)
      (Real.pi * fs) = 1 := by
  unfold magnitude
  rw [magSq_at_dc _ _ _ hz hp, magSq_at_nyquist _ _ _ hz hp hfs, Real.sqrt_one]
  exact ⟨rfl, rfl⟩

/-- Witness for C6 at `negZero = negPole = 1`, sample rate 1. -/
theorem spectral_tilt_gain_normalization_witness :
    magnitude (compute_bilinear_element STLT_NORM_AT_DC 1 1 1) 0 = 1 ∧
    magnitude (compute_bilinear_element STLT_NORM_AT_NYQUIST 1 1 1) (Real.pi * 1) = 1 :=
  spectral_tilt_gain_normalization 1 1 1 one_pos one_pos one_pos

/-! ### C9: idempotence of update_settings -/

lemma forcedOrder_idem (n : Nat) : forcedOrder (forcedOrder n) = forcedOrder n := by
  unfold forcedOrder MAX_ORDER
  split_ifs <;> omega

lemma resolveNorm_idem (n : stlt_norm_t) (a b : ℚ) :
    resolveNorm (resolveNorm n a) b = resolveNorm n a :=
  resolveNorm_of_ne_auto _ (resolveNorm_ne_auto n a)

lemma bandValidate_fst_lt_snd (fs l u : ℚ) :
    (bandValidate fs l u).1 < (bandValidate fs l u).2 := by
  simp only [bandValidate, DFL_LOWER_FREQUENCY, DFL_UPPER_FREQUENCY]
  split_ifs <;> push_neg at * <;> simp_all <;> linarith

lemma bandValidate_fst (fs l u : ℚ) :
    (bandValidate fs l u).1 = DFL_LOWER_FREQUENCY ∨
      ((bandValidate fs l u).1 = l ∧ l < 0.5 * fs) := by
  simp only [bandValidate, DFL_LOWER_FREQUENCY, DFL_UPPER_FREQUENCY]
  split_ifs <;> simp_all

lemma bandValidate_snd (fs l u : ℚ) :
    (bandValidate fs l u).2 = DFL_UPPER_FREQUENCY ∨
      ((bandValidate fs l u).2 = u ∧ u < 0.5 * fs) := by
  simp only [bandValidate, DFL_LOWER_FREQUENCY, DFL_UPPER_FREQUENCY]
  split_ifs <;> simp_all

lemma bandValidate_idem (fs l u : ℚ) :
    bandValidate fs (bandValidate fs l u).1 (bandValidate fs l u).2 = bandValidate fs l u := by
  have hlt := bandValidate_fst_lt_snd fs l u
  have hL := bandValidate_fst fs l u
  have hU := bandValidate_snd fs l u
  conv_rhs => rw [← Prod.mk.eta (p := bandValidate fs l u)]
  generalize h1 : (bandValidate fs l u).1 = L at *
  generalize h2 : (bandValidate fs l u).2 = U at *
  simp only [bandValidate]
  have e1 : (if L ≥ 0.5 * fs then DFL_LOWER_FREQUENCY else L) = L := by
    rcases hL with h | ⟨h, hl2⟩
    · rw [h]; exact ite_self _
    · rw [h]; exact if_neg (not_le.mpr hl2)
  have e2 : (if U ≥ 0.5 * fs then DFL_UPPER_FREQUENCY else U) = U := by
    rcases hU with h | ⟨h, hu2⟩
    · rw [h]; exact ite_self _
    · rw [h]; exact if_neg (not_le.mpr hu2)
  simp only [e1, e2]
  rw [if_neg (not_le.mpr hlt)]

lemma update_settings_of_not_sync {s : SpectralTilt} (h : s.bSync = false) :
    update_settings s = s := by
  simp [update_settings, h]

/-- C9: `update_settings` is idempotent: with no intervening mutation a
second call reproduces exactly the state (configuration fields, derived
state and assembled chain) a single call produces. -/
theorem spectral_tilt_update_settings_idempotent (s : SpectralTilt) :
    update_settings (update_settings s) = update_settings s := by
  by_cases h : s.bSync = true
  case neg =>
    have hb : s.bSync = false := by simpa using h
    rw [update_settings_of_not_sync hb, update_settings_of_not_sync hb]
  case pos =>
    have h2 : (update_settings s).bSync = true := update_settings_bSync h
    apply SpectralTilt.ext
    case nOrder =>
      rw [update_settings_nOrder h2, update_settings_nOrder h, forcedOrder_idem]
    case enSlopeUnit => rw [update_settings_enSlopeUnit]
    case enNorm =>
      rw [update_settings_enNorm h2, update_settings_enSlopeUnit, update_settings_fSlopeVal,
        update_settings_enNorm h, resolveNorm_idem]
    case fSlopeVal => rw [update_settings_fSlopeVal]
    case fSlopeNepNep =>
      rw [update_settings_fSlopeNepNep h2, update_settings_enSlopeUnit, update_settings_fSlopeVal,
        update_settings_fSlopeNepNep h]
    case fLowerFrequency =>
      rw [update_settings_fLowerFrequency h2, update_settings_nSampleRate,
        update_settings_fLowerFrequency h, update_settings_fUpperFrequency h,
        bandValidate_idem]
    case fUpperFrequency =>
      rw [update_settings_fUpperFrequency h2, update_settings_nSampleRate,
        update_settings_fLowerFrequency h, update_settings_fUpperFrequency h,
        bandValidate_idem]
    case nSampleRate => rw [update_settings_nSampleRate]
    case bBypass =>
      rw [update_settings_bBypass h2, update_settings_enSlopeUnit, update_settings_fSlopeVal,
        update_settings_bBypass h]
    case bSync => rw [update_settings_bSync h2, update_settings_bSync h]
    case sFilter =>
      rw [update_settings_sFilter h2]
      simp only [update_settings_enSlopeUnit, update_settings_fSlopeVal, update_settings_enNorm h,
        update_settings_fSlopeNepNep h, update_settings_nOrder h, update_settings_nSampleRate,
        update_settings_fLowerFrequency h, update_settings_fUpperFrequency h]
      simp only [forcedOrder_idem, resolveNorm_idem, bandValidate_idem]
      by_cases hbp : s.enSlopeUnit = STLT_SLOPE_UNIT_NONE ∨ convertSlope s.enSlopeUnit s.fSlopeVal = 0
      · rw [if_pos hbp]
      · rw [if_neg hbp, update_settings_sFilter h, if_neg hbp]
        simp only [buildChain_eq, FilterBank.endTx]
        simp only [apply_ite FilterBank.cap, ite_self]
        split_ifs with hc <;> rfl

end SpectralTilt

end LspDspUnits
